import Mathlib

set_option maxRecDepth 40000

/-
  Verification of the terminal-commander serial command engine
  (src/src/terminal_commander.cpp, latest revision: delimiter-based
  tokenizer, user callbacks, TwoWire built-ins).

  The C++ code is shallowly embedded: fixed C arrays become `List`s
  read through `getD` with the null character as default (matching the
  zero-initialised, null-terminated buffers of the source), `uint8_t`
  narrowing is made explicit with `% 256`, and every `for`/`while` loop
  becomes a structurally recursive function on an explicit fuel counter
  equal to the loop bound of the source.
-/

namespace TerminalCommander

/-- TERM_CHAR_BUFFER_SIZE: terminal buffer length in bytes. -/
def TERM_CHAR_BUFFER_SIZE : Nat := 64

/-- TERM_TWOWIRE_BUFFER_SIZE: TwoWire read/write buffer length. -/
def TERM_TWOWIRE_BUFFER_SIZE : Nat := 30

/-- MAX_USER_COMMANDS: maximum number of unique user-defined commands. -/
def MAX_USER_COMMANDS : Nat := 10

/-- TERM_LINE_ENDING. -/
def TERM_LINE_ENDING : Char := '\n'

/-- TERM_DEFAULT_CMD_DELIMITER. -/
def TERM_DEFAULT_CMD_DELIMITER : Char := ' '

/-- Arduino isSpace: space, horizontal tab, newline, vertical tab,
form feed, carriage return. -/
def isSpace (c : Char) : Bool :=
  c.toNat == 32 || c.toNat == 9 || c.toNat == 10 ||
  c.toNat == 11 || c.toNat == 12 || c.toNat == 13

/-- error_type_t of terminal_commander.h. -/
inductive ErrorType where
  | NoError
  | NoInput
  | UndefinedUserFunctionPtr
  | UnrecognizedInput
  | InvalidSerialCmdLength
  | IncomingTwoWireReadLength
  | InvalidTwoWireCharacter
  | InvalidTwoWireCmdLength
  | InvalidTwoWireWriteData
  | InvalidHexValuePair
  | UnrecognizedProtocol
  | UnrecognizedI2CTransType
deriving DecidableEq, Repr

/-- The Command class: buffers, pointers and indices.  `serialRx` and
`data` model the two `char[TERM_CHAR_BUFFER_SIZE + 1]` arrays, `twowire`
the `uint8_t[TERM_TWOWIRE_BUFFER_SIZE]` array.  The C pointer `pArgs` is
modelled as the index into `serialRx` it points to (`none` = nullptr). -/
structure Command where
  serialRx : List Char
  data : List Char
  twowire : List Nat
  pArgs : Option Nat
  iArgs : Nat
  cmdLength : Nat
  argsLength : Nat
  index : Nat
  complete : Bool
  overflow : Bool
deriving DecidableEq, Repr

/-- A freshly constructed Command: zero-filled buffers, null pointer,
zero indices, cleared flags. -/
def Command.init : Command :=
  { serialRx := List.replicate (TERM_CHAR_BUFFER_SIZE + 1) '\x00'
    data := List.replicate (TERM_CHAR_BUFFER_SIZE + 1) '\x00'
    twowire := List.replicate TERM_TWOWIRE_BUFFER_SIZE 0
    pArgs := none
    iArgs := 0
    cmdLength := 0
    argsLength := 0
    index := 0
    complete := false
    overflow := false }

/-- Command::next(char): line ending sets `complete`; a full buffer sets
`overflow` and drops the byte; otherwise the byte is stored at `index`
and `index` is incremented. -/
def Command.next (s : Command) (character : Char) : Command :=
  if character = TERM_LINE_ENDING then
    { s with complete := true }
  else if s.index ≥ TERM_CHAR_BUFFER_SIZE then
    { s with overflow := true }
  else
    { s with serialRx := s.serialRx.set s.index character, index := s.index + 1 }

/-- Command::previous(): destructive backspace. -/
def Command.previous (s : Command) : Command :=
  if s.index > 0 then
    { s with serialRx := s.serialRx.set (s.index - 1) '\x00', index := s.index - 1 }
  else s

/-- Command::flushInput(): clear serialRx, clear complete and overflow. -/
def Command.flushInput (s : Command) : Command :=
  { s with serialRx := List.replicate (TERM_CHAR_BUFFER_SIZE + 1) '\x00'
           complete := false
           overflow := false }

/-- Command::flushTwoWire(): clear the twowire buffer. -/
def Command.flushTwoWire (s : Command) : Command :=
  { s with twowire := List.replicate TERM_TWOWIRE_BUFFER_SIZE 0 }

/-- Command::initialize(): null pArgs, zero all indices and lengths,
clear the twowire and data buffers (named initializeFields because the
source method name is reserved here). -/
def Command.initializeFields (s : Command) : Command :=
  { s.flushTwoWire with
      pArgs := none
      iArgs := 0
      cmdLength := 0
      argsLength := 0
      index := 0
      data := List.replicate (TERM_CHAR_BUFFER_SIZE + 1) '\x00' }

/-- Command::reset(): flushInput() followed by initialize(). -/
def Command.reset (s : Command) : Command :=
  s.flushInput.initializeFields

/-- The accepting branches of Terminal::isRxBufferDataValid, in source
order: lower-case letters (96 < c < 122), digits (47 < c < 58),
upper-case letters (64 < c < 91), isSpace, comma (44), hyphen (45),
period (46), semicolon (59), the configured delimiter. -/
def validCharBranch (delim c : Char) : Bool :=
  decide (96 < c.toNat ∧ c.toNat < 122) ||
  decide (47 < c.toNat ∧ c.toNat < 58) ||
  decide (64 < c.toNat ∧ c.toNat < 91) ||
  isSpace c ||
  decide (c.toNat = 44) ||
  decide (c.toNat = 45) ||
  decide (c.toNat = 46) ||
  decide (c.toNat = 59) ||
  decide (c = delim)

/-- The scan loop of Terminal::isRxBufferDataValid.  `fuel` counts the
remaining iterations of `for (idx = 0; idx < sizeof(serialRx); idx++)`,
so the top-level call uses fuel 65 and `fuel = 65 - idx` throughout.
Result `some e` models `lastError.set(e); return false`, `none` models
`return true`. -/
def isRxBufferDataValidGo (delim : Char) (rx : List Char) :
    Nat → Nat → Option ErrorType
  | _, 0 => none
  | idx, fuel + 1 =>
    let c := rx.getD idx '\x00'
    if validCharBranch delim c then
      isRxBufferDataValidGo delim rx (idx + 1) fuel
    else if c = '\x00' then
      if idx = 0 then some .NoInput else none
    else
      some .UnrecognizedInput

/-- Terminal::isRxBufferDataValid(). -/
def isRxBufferDataValid (delim : Char) (rx : List Char) : Option ErrorType :=
  isRxBufferDataValidGo delim rx 0 (TERM_CHAR_BUFFER_SIZE + 1)

/-- The loop of Terminal::removeSpaces.  `fuel` counts the remaining
iterations of `for (serialrx_index = 0; serialrx_index < 64; ...)`, so
the top-level call uses fuel 64 and `fuel = 64 - serialrx_index`
throughout.  Returns the updated command together with the final
`data_index` (a local in the source), before the trailing `argsLength`
assignment. -/
def removeSpacesLoop (delim : Char) :
    Nat → Nat → Command → Nat → Except ErrorType (Command × Nat)
  | 0, _, s, dataIndex => .ok (s, dataIndex)
  | fuel + 1, i, s, dataIndex =>
    let c := s.serialRx.getD i '\x00'
    if c ≠ delim then
      if c = '\x00' then
        if dataIndex = 0 then
          .error .NoInput
        else
          .ok ((if s.cmdLength = 0 then { s with cmdLength := dataIndex } else s),
               dataIndex)
      else if isSpace c then
        removeSpacesLoop delim fuel (i + 1) s dataIndex
      else
        removeSpacesLoop delim fuel (i + 1)
          { s with data := s.data.set dataIndex c } (dataIndex + 1)
    else
      if s.pArgs = none ∧ dataIndex ≠ 0 ∧ i ≠ TERM_CHAR_BUFFER_SIZE - 1 then
        removeSpacesLoop delim fuel (i + 1)
          { s with pArgs := some (i + 1), iArgs := i, cmdLength := dataIndex }
          dataIndex
      else if isSpace c then
        removeSpacesLoop delim fuel (i + 1) s dataIndex
      else
        removeSpacesLoop delim fuel (i + 1)
          { s with data := s.data.set dataIndex c } (dataIndex + 1)

/-- Terminal::removeSpaces(): run the loop, then
`argsLength = data_index - cmdLength`. -/
def removeSpaces (delim : Char) (s : Command) : Except ErrorType Command :=
  match removeSpacesLoop delim TERM_CHAR_BUFFER_SIZE 0 s 0 with
  | .error e => .error e
  | .ok (s', dataIndex) => .ok { s' with argsLength := dataIndex - s'.cmdLength }

deriving instance DecidableEq for Except

/-- Read a zero-filled C char buffer as a C string: the characters
before the first null terminator. -/
def cString (l : List Char) : List Char :=
  l.takeWhile (fun c => c ≠ '\x00')

/-- The leading-whitespace skip of Terminal::runUserCallbacks:
`while (*pArgs != '\0' && isSpace(pArgs[0])) { pArgs++; iArgs++; }`.
`pArgs` always points at `serialRx[iArgs + 1]`; the function returns the
final `iArgs`.  `fuel` bounds the walk by the buffer size (the source
loop is stopped by the null terminator that always ends `serialRx`). -/
def skipLeadingSpace (rx : List Char) : Nat → Nat → Nat
  | iArgs, 0 => iArgs
  | iArgs, fuel + 1 =>
    let c := rx.getD (iArgs + 1) '\x00'
    if c ≠ '\x00' ∧ isSpace c then skipLeadingSpace rx (iArgs + 1) fuel
    else iArgs

/-- The trailing-length scan of Terminal::runUserCallbacks:
`for (k = TERM_CHAR_BUFFER_SIZE; k > iArgs; k--)` returning
`k - iArgs` at the first non-null non-space character, else 0. -/
def userArgsLengthGo (rx : List Char) (iArgs : Nat) : Nat → Nat
  | 0 => 0
  | k + 1 =>
    if k + 1 > iArgs then
      let c := rx.getD (k + 1) '\x00'
      if c ≠ '\x00' ∧ ¬ isSpace c then (k + 1) - iArgs
      else userArgsLengthGo rx iArgs k
    else 0

/-- Terminal::runUserCallbacks().  `names` is the registered command
table in insertion order (callback bodies are irrelevant to dispatch, so
a binding is represented by its name).  A match returns the 0-based
table index, the serialRx index the callback's argument pointer refers
to (`none` = nullptr), and the argument length passed to the callback;
`none` means no user command matched. -/
def runUserCallbacks (names : List (List Char)) (s : Command) :
    Option (Nat × Option Nat × Nat) :=
  match s.pArgs with
  | some _ =>
    let user_command := cString (s.data.take s.cmdLength)
    match names.findIdx? (fun n => n == user_command) with
    | some k =>
      let iArgs' := skipLeadingSpace s.serialRx s.iArgs (TERM_CHAR_BUFFER_SIZE + 1)
      some (k, some (iArgs' + 1), userArgsLengthGo s.serialRx iArgs' TERM_CHAR_BUFFER_SIZE)
    | none => none
  | none =>
    match names.findIdx? (fun n => n == cString s.data) with
    | some k => some (k, none, 0)
    | none => none

/-- The lower-case fold of Terminal::parseTwoWireData: characters in
(96, 103) (letters a-f) are converted to upper case. -/
def hexFold (v : Nat) : Nat :=
  if 96 < v ∧ v < 103 then v - 32 else v

/-- The conversion loop of Terminal::parseTwoWireData.  `fuel` counts
the remaining iterations of `for ( ; idx < 30; idx++)`, so the
top-level call uses fuel 30 and `fuel = 30 - idx` throughout.  Returns
the final `idx` (the nibble count) and the updated twowire buffer, or
the invalid-character error. -/
def parseTwoWireLoop (data : List Char) (cmdLength : Nat) :
    Nat → Nat → List Nat → Except ErrorType (Nat × List Nat)
  | 0, idx, tw => .ok (idx, tw)
  | fuel + 1, idx, tw =>
    let c := data.getD (idx + cmdLength) '\x00'
    if c = '\x00' then .ok (idx, tw)
    else
      let v := hexFold c.toNat
      if 47 < v ∧ v < 58 then
        parseTwoWireLoop data cmdLength fuel (idx + 1) (tw.set idx (v - 48))
      else if 64 < v ∧ v < 71 then
        parseTwoWireLoop data cmdLength fuel (idx + 1) (tw.set idx (v - 55))
      else
        .error .InvalidTwoWireCharacter

/-- The opening normalisation of Terminal::parseTwoWireData: when
cmdLength is not 4 (command sent without spaces or badly formatted),
set `argsLength = argsLength + cmdLength - 4` (uint8_t wrap-around)
and `cmdLength = 4`. -/
def parseTwoWireAdjust (s : Command) : Command :=
  if s.cmdLength ≠ 4 then
    { s with argsLength := (s.argsLength + s.cmdLength + 252) % 256, cmdLength := 4 }
  else s

/-- The closing checks of Terminal::parseTwoWireData applied to the
conversion loop's outcome: reject fewer than 3 nibbles
(InvalidTwoWireCmdLength) or an odd nibble count — the source writes
the oddness test as `(idx >> 1) != ((idx + 1) >> 1)` —
(InvalidHexValuePair); on success return the updated command and the
nibble count. -/
def parseTwoWireCheck (s : Command) :
    Except ErrorType (Nat × List Nat) → Except ErrorType (Command × Nat)
  | .error e => .error e
  | .ok (idx, tw) =>
    if idx < 3 then .error .InvalidTwoWireCmdLength
    else if idx / 2 ≠ (idx + 1) / 2 then .error .InvalidHexValuePair
    else .ok ({ s with twowire := tw }, idx)

/-- Terminal::parseTwoWireData(): normalise cmdLength, run the
conversion loop over the data buffer, apply the closing checks. -/
def parseTwoWireData (s : Command) : Except ErrorType (Command × Nat) :=
  parseTwoWireCheck (parseTwoWireAdjust s)
    (parseTwoWireLoop (parseTwoWireAdjust s).data (parseTwoWireAdjust s).cmdLength
      TERM_TWOWIRE_BUFFER_SIZE 0 (parseTwoWireAdjust s).twowire)

/-- The TwoWire bus abstraction: whether an address acknowledges a
transaction, and the bytes the device streams back after a
requestFrom. -/
structure Bus where
  ack : Nat → Bool
  readBytes : List Nat

/-- A bus on which every address acknowledges and no read data
arrives. -/
def busAllAck : Bus := { ack := fun _ => true, readBytes := [] }

/-- Outcome of Terminal::readTwoWire after a successful parse:
`nack` is the early return on NACK_ADDRESS; `lengthErr` is
IncomingTwoWireReadLength; `done` records the address, the register
written in the addressing transaction, the byte count passed to
requestFrom, and the bytes copied back into the twowire buffer. -/
inductive ReadResult where
  | parseErr (e : ErrorType)
  | nack (addr reg : Nat)
  | lengthErr (addr reg requested : Nat)
  | done (addr reg requested : Nat) (received : List Nat)
deriving DecidableEq, Repr

/-- Terminal::readTwoWire(): parse, decode address and register from
the first four nibbles, flush the twowire buffer, write the register
(abort on NACK), then request `(argsLength >> 1) - 1` bytes (uint8_t
arithmetic) and copy the arriving bytes, failing if more than
TERM_TWOWIRE_BUFFER_SIZE arrive. -/
def readTwoWire (bus : Bus) (s : Command) : ReadResult :=
  match parseTwoWireData s with
  | .error e => .parseErr e
  | .ok (s, _) =>
    let i2c_address := (s.twowire.getD 0 0 * 16 + s.twowire.getD 1 0) % 256
    let i2c_register := (s.twowire.getD 2 0 * 16 + s.twowire.getD 3 0) % 256
    if ¬ bus.ack i2c_address then .nack i2c_address i2c_register
    else
      let requested := (s.argsLength / 2 + 255) % 256
      let incoming := bus.readBytes.take requested
      if incoming.length > TERM_TWOWIRE_BUFFER_SIZE then
        .lengthErr i2c_address i2c_register requested
      else
        .done i2c_address i2c_register requested incoming

/-- One hex digit as printed by Arduino Print with base HEX. -/
def hexDigitChar (n : Nat) : Char :=
  if n < 10 then Char.ofNat (n + 48) else Char.ofNat (n + 55)

/-- A byte as printed by Arduino print(value, HEX): minimal digits,
upper case, no padding. -/
def printHexByte (b : Nat) : String :=
  if b < 16 then String.mk [hexDigitChar b]
  else String.mk [hexDigitChar (b / 16), hexDigitChar (b % 16)]

/-- One token of the Write Data echo of Terminal::writeTwoWire:
`if (write_data < 0x01)` print " 0x0" else " 0x", then the byte in
hex. -/
def writeEchoToken (b : Nat) : String :=
  (if b < 1 then " 0x0" else " 0x") ++ printHexByte b

/-- The payload bytes written by the loop
`for (k = 4; k < argsLength; k += 2) write(16*twowire[k] + twowire[k+1])`
of Terminal::writeTwoWire.  `fuel` bounds the loop by `argsLength`
(the source loop makes at most that many steps). -/
def twiWritePayload (tw : List Nat) (argsLength : Nat) : Nat → Nat → List Nat
  | _, 0 => []
  | k, fuel + 1 =>
    if k < argsLength then
      ((16 * tw.getD k 0 + tw.getD (k + 1) 0) % 256) ::
        twiWritePayload tw argsLength (k + 2) fuel
    else []

/-- The twowire buffer indices read by the write and echo loops of
Terminal::writeTwoWire: for each `k` with `4 ≤ k < argsLength` stepped
by 2, indices `k` and `k + 1`. -/
def twiWriteIndices (argsLength : Nat) : Nat → Nat → List Nat
  | _, 0 => []
  | k, fuel + 1 =>
    if k < argsLength then
      k :: (k + 1) :: twiWriteIndices argsLength (k + 2) fuel
    else []

/-- Outcome of Terminal::writeTwoWire: a parse or write-data error, the
early NACK return, or `done` with the address, the full byte sequence
of the single transaction (register first, then the payload bytes in
order), and the Write Data echo tokens. -/
inductive WriteResult where
  | err (e : ErrorType)
  | nack (addr reg : Nat)
  | done (addr : Nat) (written : List Nat) (echo : List String)
deriving DecidableEq, Repr

/-- Terminal::writeTwoWire(): parse, require argsLength ≥ 6, decode
address and register, issue one transaction writing the register and
every payload byte (abort on NACK), then echo each written payload
byte. -/
def writeTwoWire (bus : Bus) (s : Command) : WriteResult :=
  match parseTwoWireData s with
  | .error e => .err e
  | .ok (s, _) =>
    if s.argsLength < 6 then .err .InvalidTwoWireWriteData
    else
      let i2c_address := (s.twowire.getD 0 0 * 16 + s.twowire.getD 1 0) % 256
      let i2c_register := (s.twowire.getD 2 0 * 16 + s.twowire.getD 3 0) % 256
      let payload := twiWritePayload s.twowire s.argsLength 4 s.argsLength
      if ¬ bus.ack i2c_address then .nack i2c_address i2c_register
      else
        .done i2c_address (i2c_register :: payload) (payload.map writeEchoToken)

/-- Outcome of Terminal::scanTwoWireBus: trailing arguments are
rejected with UnrecognizedProtocol, otherwise the scan runs. -/
inductive ScanResult where
  | rejected
  | scanned
deriving DecidableEq, Repr

/-- Terminal::scanTwoWireBus(): reject when
`argsLength + cmdLength > 4`. -/
def scanTwoWireBus (s : Command) : ScanResult :=
  if s.argsLength + s.cmdLength > 4 then .rejected else .scanned

/-- Outcome of one Terminal::serialCommandProcessor call: an error (set
on lastError), a user callback invocation (table index, argument
pointer, argument length), or one of the three built-ins. -/
inductive CycleResult where
  | err (e : ErrorType)
  | userCall (k : Nat) (argIndex : Option Nat) (argLen : Nat)
  | i2cReadDone (r : ReadResult)
  | i2cWriteDone (w : WriteResult)
  | scanDone (r : ScanResult)
deriving DecidableEq, Repr

/-- Terminal::serialCommandProcessor(): validate the raw buffer, build
the compacted copy, try user callbacks first, then the i2c r/w and scan
built-ins, else UnrecognizedProtocol. -/
def serialCommandProcessor (delim : Char) (names : List (List Char))
    (bus : Bus) (s : Command) : CycleResult :=
  match isRxBufferDataValid delim s.serialRx with
  | some e => .err e
  | none =>
    match removeSpaces delim s with
    | .error e => .err e
    | .ok s =>
      match runUserCallbacks names s with
      | some (k, p, n) => .userCall k p n
      | none =>
        let d0 := s.data.getD 0 '\x00'
        let d1 := s.data.getD 1 '\x00'
        let d2 := s.data.getD 2 '\x00'
        let d3 := s.data.getD 3 '\x00'
        if (d0 = 'i' ∨ d0 = 'I') ∧ d1 = '2' ∧ (d2 = 'c' ∨ d2 = 'C') then
          if d3 = 'r' ∨ d3 = 'R' then .i2cReadDone (readTwoWire bus s)
          else if d3 = 'w' ∨ d3 = 'W' then .i2cWriteDone (writeTwoWire bus s)
          else .err .UnrecognizedI2CTransType
        else if (d0 = 's' ∨ d0 = 'S') ∧ (d1 = 'c' ∨ d1 = 'C') ∧
                (d2 = 'a' ∨ d2 = 'A') ∧ (d3 = 'n' ∨ d3 = 'N') then
          .scanDone (scanTwoWireBus s)
        else
          .err .UnrecognizedProtocol

/-- The user-callback stage of the dispatcher in isolation: the value
`runUserCallbacks` produces when a completed line survives validation
and tokenization (none when either stage fails or no name matches). -/
def userStageOutcome (delim : Char) (names : List (List Char))
    (s : Command) : Option (Nat × Option Nat × Nat) :=
  match isRxBufferDataValid delim s.serialRx with
  | some _ => none
  | none =>
    match removeSpaces delim s with
    | .error _ => none
    | .ok s' => runUserCallbacks names s'

/-- Feed a byte sequence one character at a time through
Command::next starting from a fresh Command (the ingestion the
Terminal::loop drain performs for ordinary characters). -/
def ingestLine (line : List Char) : Command :=
  line.foldl Command.next Command.init

/-- Ingest a line and run the command processor on it. -/
def processLine (delim : Char) (names : List (List Char)) (bus : Bus)
    (line : List Char) : CycleResult :=
  serialCommandProcessor delim names bus (ingestLine line)

/-- The user command registry of the TerminalCommander class:
`user_callback_char_t userCharCallbacks[MAX_USER_COMMANDS]` (a slot
holds a registered name) and `uint8_t numUserCharCallbacks`. -/
structure UserRegistry where
  userCharCallbacks : List (Option (List Char))
  numUserCharCallbacks : Nat
deriving DecidableEq, Repr

/-- A freshly constructed registry: empty fixed table, zero count. -/
def UserRegistry.init : UserRegistry :=
  { userCharCallbacks := List.replicate MAX_USER_COMMANDS none
    numUserCharCallbacks := 0 }

/-- The array index Terminal::onCommand writes the new binding to:
`userCharCallbacks[numUserCharCallbacks] = {command, callback}`. -/
def onCommandWriteIndex (r : UserRegistry) : Nat :=
  r.numUserCharCallbacks

/-- Terminal::onCommand(command, callback): store the binding at index
numUserCharCallbacks and increment the count.  The source performs no
capacity check; a write at an index outside the fixed table (modelled
by `List.set`, which drops out-of-range writes) is an out-of-bounds
array store in the C++. -/
def onCommand (r : UserRegistry) (name : List Char) : UserRegistry :=
  { userCharCallbacks := r.userCharCallbacks.set r.numUserCharCallbacks (some name)
    numUserCharCallbacks := r.numUserCharCallbacks + 1 }

/-- parseTwoWireData applied to a compacted data buffer holding a
4-character command followed by the given argument characters — the
state in which writeTwoWire and readTwoWire hand the buffer to the
parser. -/
def twoWireParseOn (args : List Char) : Except ErrorType (Command × Nat) :=
  parseTwoWireData
    { Command.init with
        data := ['i', '2', 'c', 'w'] ++ args ++
          List.replicate (TERM_CHAR_BUFFER_SIZE + 1 - (4 + args.length)) '\x00'
        cmdLength := 4
        argsLength := args.length }

/-- removeSpaces followed by parseTwoWireData on an ingested line: the
state preparation both TwoWire built-ins perform before touching the
bus. -/
def tokenizeThenParse (delim : Char) (line : List Char) :
    Except ErrorType (Command × Nat) :=
  match removeSpaces delim (ingestLine line) with
  | .error e => .error e
  | .ok s => parseTwoWireData s

/-- A hexadecimal digit character (0-9, A-F, a-f): the character set
the spec's HexCodec section names. -/
def isHexDigitChar (c : Char) : Bool :=
  decide (48 ≤ c.toNat ∧ c.toNat ≤ 57) ||
  decide (65 ≤ c.toNat ∧ c.toNat ≤ 70) ||
  decide (97 ≤ c.toNat ∧ c.toNat ≤ 102)

/-- Modelled from the spec: the character set the validation claim
says is accepted — ASCII letters, ASCII digits, the configured
delimiter, whitespace, hyphen, period, comma (and nothing else). -/
def specAllowedChar (delim c : Char) : Bool :=
  decide (97 ≤ c.toNat ∧ c.toNat ≤ 122) ||
  decide (65 ≤ c.toNat ∧ c.toNat ≤ 90) ||
  decide (48 ≤ c.toNat ∧ c.toNat ≤ 57) ||
  decide (c = delim) ||
  isSpace c ||
  decide (c.toNat = 45) ||
  decide (c.toNat = 46) ||
  decide (c.toNat = 44)

/-- The character set the validation pass actually accepts, written as
plain character ranges: ASCII letters except z, ASCII digits, the
configured delimiter, whitespace, semicolon, hyphen, period, comma. -/
def amendedAllowedChar (delim c : Char) : Bool :=
  decide (97 ≤ c.toNat ∧ c.toNat ≤ 121) ||
  decide (65 ≤ c.toNat ∧ c.toNat ≤ 90) ||
  decide (48 ≤ c.toNat ∧ c.toNat ≤ 57) ||
  decide (c = delim) ||
  isSpace c ||
  decide (c.toNat = 59) ||
  decide (c.toNat = 45) ||
  decide (c.toNat = 46) ||
  decide (c.toNat = 44)

section HelperLemmas

variable {α : Type _}

theorem getD_set_self (l : List α) (i : Nat) (a d : α) (h : i < l.length) :
    (l.set i a).getD i d = a := by
  simp [List.getD_eq_getElem?_getD, List.getElem?_set_self h]

theorem getD_set_ne (l : List α) {i j : Nat} (a d : α) (h : i ≠ j) :
    (l.set i a).getD j d = l.getD j d := by
  simp [List.getD_eq_getElem?_getD, List.getElem?_set_ne h]

theorem getD_replicate_self (n j : Nat) (a : α) :
    (List.replicate n a).getD j a = a := by
  simp only [List.getD_eq_getElem?_getD, List.getElem?_replicate]
  split <;> rfl

theorem getD_append_replicate (l : List α) (n j : Nat) (d : α) :
    (l ++ List.replicate n d).getD j d = l.getD j d := by
  simp only [List.getD_eq_getElem?_getD, List.getElem?_append]
  split
  · rfl
  · rw [List.getElem?_replicate]
    have : l.length ≤ j := by omega
    rw [List.getElem?_eq_none this]
    split <;> rfl

theorem getD_take (l : List α) {n j : Nat} (d : α) (h : j < n) :
    (l.take n).getD j d = l.getD j d := by
  simp only [List.getD_eq_getElem?_getD, List.getElem?_take, if_pos h]

theorem getD_mem (l : List α) {j : Nat} (d : α) (h : j < l.length) :
    l.getD j d ∈ l := by
  rw [List.getD_eq_getElem l d h]
  exact List.getElem_mem h

theorem char_ne_of_toNat_ne {a b : Char} (h : a.toNat ≠ b.toNat) : a ≠ b :=
  fun e => h (congrArg Char.toNat e)

theorem isSpace_iff (c : Char) :
    isSpace c = true ↔
      (c.toNat = 32 ∨ c.toNat = 9 ∨ c.toNat = 10 ∨ c.toNat = 11 ∨
       c.toNat = 12 ∨ c.toNat = 13) := by
  simp [isSpace, or_assoc]

theorem validCharBranch_eq_amended (delim c : Char) :
    validCharBranch delim c = amendedAllowedChar delim c := by
  rw [Bool.eq_iff_iff]
  simp only [validCharBranch, amendedAllowedChar, Bool.or_eq_true,
    decide_eq_true_eq]
  by_cases hd : c = delim
  all_goals by_cases hs : isSpace c = true
  all_goals simp [hd, hs]
  all_goals omega

theorem validCharBranch_nul {delim : Char} (hdelim : delim ≠ '\x00') :
    validCharBranch delim '\x00' = false := by
  have h0 : ('\x00').toNat = 0 := rfl
  have hne : ¬ ('\x00' = delim) := fun h => hdelim h.symm
  simp [validCharBranch, isSpace, h0, hne]

theorem isHexDigitChar_props {c : Char} (h : isHexDigitChar c = true) :
    c ≠ '\x00' ∧ c ≠ TERM_LINE_ENDING ∧ isSpace c = false ∧ c ≠ ' ' := by
  simp only [isHexDigitChar, Bool.or_eq_true, decide_eq_true_eq] at h
  have h0 : ('\x00').toNat = 0 := rfl
  have h10 : TERM_LINE_ENDING.toNat = 10 := rfl
  have h32 : (' ').toNat = 32 := rfl
  refine ⟨char_ne_of_toNat_ne ?_, char_ne_of_toNat_ne ?_, ?_, char_ne_of_toNat_ne ?_⟩
  · rw [h0]; omega
  · rw [h10]; omega
  · rw [Bool.eq_false_iff]
    intro hs
    rw [isSpace_iff] at hs
    omega
  · rw [h32]; omega

theorem isHexDigitChar_amended (delim : Char) {c : Char}
    (h : isHexDigitChar c = true) : amendedAllowedChar delim c = true := by
  simp only [isHexDigitChar, Bool.or_eq_true, decide_eq_true_eq] at h
  simp only [amendedAllowedChar, Bool.or_eq_true, decide_eq_true_eq]
  omega

theorem hexAccept_iff (c : Char) :
    ((47 < hexFold c.toNat ∧ hexFold c.toNat < 58) ∨
     (64 < hexFold c.toNat ∧ hexFold c.toNat < 71)) ↔
      isHexDigitChar c = true := by
  simp only [isHexDigitChar, Bool.or_eq_true, decide_eq_true_eq, hexFold]
  split <;> omega

end HelperLemmas

section IngestLemmas

/-- Feeding a batch of non-terminator characters that fits in the
remaining buffer space stores them in order at `index` and advances
`index`; every other field is untouched. -/
theorem foldl_next_fits (cs : List Char) :
    ∀ s : Command, (∀ c ∈ cs, c ≠ TERM_LINE_ENDING) →
      s.index + cs.length ≤ TERM_CHAR_BUFFER_SIZE →
      s.serialRx.length = TERM_CHAR_BUFFER_SIZE + 1 →
      (cs.foldl Command.next s).index = s.index + cs.length ∧
      (cs.foldl Command.next s).complete = s.complete ∧
      (cs.foldl Command.next s).overflow = s.overflow ∧
      (cs.foldl Command.next s).data = s.data ∧
      (cs.foldl Command.next s).twowire = s.twowire ∧
      (cs.foldl Command.next s).pArgs = s.pArgs ∧
      (cs.foldl Command.next s).iArgs = s.iArgs ∧
      (cs.foldl Command.next s).cmdLength = s.cmdLength ∧
      (cs.foldl Command.next s).argsLength = s.argsLength ∧
      (cs.foldl Command.next s).serialRx.length = s.serialRx.length ∧
      (∀ j, (j < s.index ∨ s.index + cs.length ≤ j) →
        (cs.foldl Command.next s).serialRx.getD j '\x00' = s.serialRx.getD j '\x00') ∧
      (∀ j, j < cs.length →
        (cs.foldl Command.next s).serialRx.getD (s.index + j) '\x00' = cs.getD j '\x00') := by
  induction cs with
  | nil =>
    intro s _ _ _
    refine ⟨by simp, rfl, rfl, rfl, rfl, rfl, rfl, rfl, rfl, rfl, ?_, ?_⟩
    · intro j _; rfl
    · intro j hj; simp at hj
  | cons c cs ih =>
    intro s hnl hfit hrxlen
    have hc : c ≠ TERM_LINE_ENDING := hnl c (List.mem_cons_self c cs)
    have hidx : s.index < TERM_CHAR_BUFFER_SIZE := by
      simp only [List.length_cons] at hfit; omega
    have hstep : Command.next s c =
        { s with serialRx := s.serialRx.set s.index c, index := s.index + 1 } := by
      unfold Command.next
      rw [if_neg hc, if_neg (by omega)]
    set s1 : Command :=
      { s with serialRx := s.serialRx.set s.index c, index := s.index + 1 } with hs1
    have hfold : (c :: cs).foldl Command.next s = cs.foldl Command.next s1 := by
      rw [List.foldl_cons, hstep]
    have hidxlt : s.index < s.serialRx.length := by omega
    obtain ⟨h1, h2, h3, h4, h5, h6, h7, h8, h9, h10, h11, h12⟩ :=
      ih s1 (fun x hx => hnl x (List.mem_cons_of_mem c hx))
        (by simp only [hs1, List.length_cons] at hfit ⊢; omega)
        (by simp [hs1, hrxlen])
    rw [hfold]
    refine ⟨by rw [h1]; simp [hs1, List.length_cons]; omega,
      h2, h3, h4, h5, h6, h7, h8, h9,
      by rw [h10]; simp [hs1], ?_, ?_⟩
    · intro j hj
      have hne : s.index ≠ j := by
        simp only [List.length_cons] at hj; omega
      have := h11 j (by simp only [hs1, List.length_cons] at hj ⊢; omega)
      rw [this]
      simp only [hs1]
      exact getD_set_ne s.serialRx c '\x00' hne
    · intro j hj
      match j with
      | 0 =>
        have := h11 s.index (by simp only [hs1]; omega)
        rw [Nat.add_zero, this]
        simp only [hs1]
        rw [getD_set_self s.serialRx s.index c '\x00' hidxlt]
        rfl
      | j' + 1 =>
        have := h12 j' (by simp only [List.length_cons] at hj; omega)
        simp only [hs1] at this
        rw [show s.index + (j' + 1) = s.index + 1 + j' by omega, this]
        rfl

/-- Feeding any batch of non-terminator characters into a command whose
buffer has already overflowed only raises the overflow flag. -/
theorem foldl_next_overflowed (cs : List Char) :
    ∀ s : Command, (∀ c ∈ cs, c ≠ TERM_LINE_ENDING) →
      TERM_CHAR_BUFFER_SIZE ≤ s.index → cs ≠ [] →
      cs.foldl Command.next s = { s with overflow := true } := by
  induction cs with
  | nil => intro s _ _ h; exact absurd rfl h
  | cons c cs ih =>
    intro s hnl hidx _
    have hc : c ≠ TERM_LINE_ENDING := hnl c (List.mem_cons_self c cs)
    have hstep : Command.next s c = { s with overflow := true } := by
      unfold Command.next
      rw [if_neg hc, if_pos (by omega)]
    rw [List.foldl_cons, hstep]
    rcases cs with _ | ⟨c', cs'⟩
    · rfl
    · have := ih { s with overflow := true }
        (fun x hx => hnl x (List.mem_cons_of_mem c hx)) (by simpa using hidx)
        (by simp)
      rw [this]

end IngestLemmas

/-- C8: Reset idempotence: for every state of the Command object, two
consecutive reset() calls leave every field (serialRx, data, twowire,
pArgs, iArgs, cmdLength, argsLength, index, complete, overflow)
identical to a freshly constructed instance — and already one reset()
does. -/
theorem c8_reset_idempotent :
    ∀ s : Command, s.reset.reset = Command.init ∧ s.reset = Command.init := by
  intro s
  cases s
  exact ⟨rfl, rfl⟩

/-- C7: the claim says a bind beyond capacity M = 10 fails with a
capacity error and never stores outside the table; the source onCommand
has no capacity check at all: with 10 bindings held, an 11th call
targets array index 10 — outside the 10-entry table (the modelled
List.set drops the out-of-range write; the C++ write is out of bounds)
— and increments the count to 11, producing no error. -/
theorem c7_onCommand_overruns_table :
    (((List.replicate MAX_USER_COMMANDS ['u']).foldl onCommand
        UserRegistry.init).numUserCharCallbacks = MAX_USER_COMMANDS) ∧
    onCommandWriteIndex
        ((List.replicate MAX_USER_COMMANDS ['u']).foldl onCommand
          UserRegistry.init) = MAX_USER_COMMANDS ∧
    ¬ (onCommandWriteIndex
        ((List.replicate MAX_USER_COMMANDS ['u']).foldl onCommand
          UserRegistry.init) < MAX_USER_COMMANDS) ∧
    (onCommand
        ((List.replicate MAX_USER_COMMANDS ['u']).foldl onCommand
          UserRegistry.init) ['v']).numUserCharCallbacks = MAX_USER_COMMANDS + 1 ∧
    (onCommand
        ((List.replicate MAX_USER_COMMANDS ['u']).foldl onCommand
          UserRegistry.init) ['v']).userCharCallbacks =
      ((List.replicate MAX_USER_COMMANDS ['u']).foldl onCommand
        UserRegistry.init).userCharCallbacks := by
  decide

/-- C2: dispatching "i2c w 310203" on a bus that acknowledges 0x31
issues exactly one transaction writing [0x02, 0x03] (register then
payload), as the claim says; but the echo token for the written byte
0x03 is " 0x3", not the two-digit " 0x03" the claim requires (the
source pads only when write_data < 0x01 instead of < 0x10). -/
theorem c2_write_one_transaction_echo_unpadded :
    processLine ' ' [] busAllAck ("i2c w 310203\n".toList) =
      .i2cWriteDone (.done 0x31 [0x02, 0x03] [" 0x3"]) ∧
    writeEchoToken 0x03 ≠ " 0x03" ∧
    writeEchoToken 0x03 = " 0x3" := by
  refine ⟨by decide, by decide, by decide⟩

/-- C10: a line of exactly 64 non-terminator characters followed by the
line-ending byte is accepted in full: complete becomes true, overflow
stays false, and all 64 characters are stored in the raw buffer in
order. -/
theorem c10_full_line_accepted (cs : List Char)
    (hlen : cs.length = TERM_CHAR_BUFFER_SIZE)
    (hnl : ∀ c ∈ cs, c ≠ TERM_LINE_ENDING) :
    (ingestLine (cs ++ [TERM_LINE_ENDING])).complete = true ∧
    (ingestLine (cs ++ [TERM_LINE_ENDING])).overflow = false ∧
    (ingestLine (cs ++ [TERM_LINE_ENDING])).index = TERM_CHAR_BUFFER_SIZE ∧
    ∀ j, j < TERM_CHAR_BUFFER_SIZE →
      (ingestLine (cs ++ [TERM_LINE_ENDING])).serialRx.getD j '\x00' =
        cs.getD j '\x00' := by
  obtain ⟨h1, h2, h3, _, _, _, _, _, _, _, _, h12⟩ :=
    foldl_next_fits cs Command.init hnl (by simp [Command.init, hlen])
      (by simp [Command.init])
  have hsplit : ingestLine (cs ++ [TERM_LINE_ENDING]) =
      Command.next (cs.foldl Command.next Command.init) TERM_LINE_ENDING := by
    unfold ingestLine
    rw [List.foldl_append, List.foldl_cons, List.foldl_nil]
  have hterm : Command.next (cs.foldl Command.next Command.init) TERM_LINE_ENDING =
      { cs.foldl Command.next Command.init with complete := true } := by
    unfold Command.next
    rw [if_pos rfl]
  rw [hsplit, hterm]
  refine ⟨rfl, h3, ?_, ?_⟩
  · show (cs.foldl Command.next Command.init).index = TERM_CHAR_BUFFER_SIZE
    rw [h1]; simp [Command.init, hlen]
  · intro j hj
    show (cs.foldl Command.next Command.init).serialRx.getD j '\x00' = cs.getD j '\x00'
    have := h12 j (by omega)
    simpa [Command.init] using this

/-- Witness for C10 at the concrete 64-character line of letters a. -/
theorem c10_witness :
    (ingestLine (List.replicate 64 'a' ++ [TERM_LINE_ENDING])).complete = true ∧
    (ingestLine (List.replicate 64 'a' ++ [TERM_LINE_ENDING])).overflow = false := by
  have h := c10_full_line_accepted (List.replicate 64 'a') (by decide) (by decide)
  exact ⟨h.1, h.2.1⟩

/-- C5 counterexample: the claim says overflow becomes true once the
batch length reaches C = 64; feeding exactly 64 non-terminator bytes
leaves overflow false (the 64 bytes are all stored and the flag only
turns on one byte later). -/
theorem c5_counterexample :
    (ingestLine (List.replicate 64 'a')).overflow = false ∧
    (ingestLine (List.replicate 64 'a')).index = 64 := by
  refine ⟨by decide, by decide⟩

/-- C5 as amended: for every batch of non-terminator bytes whose length
strictly exceeds the capacity C = 64, the overflow flag becomes true,
the first 64 bytes are stored, and no byte after the 64th is stored
(the buffer tail stays null). -/
theorem c5_overflow_after_capacity_exceeded (cs : List Char)
    (hnl : ∀ c ∈ cs, c ≠ TERM_LINE_ENDING)
    (hlen : TERM_CHAR_BUFFER_SIZE < cs.length) :
    (ingestLine cs).overflow = true ∧
    (ingestLine cs).index = TERM_CHAR_BUFFER_SIZE ∧
    (∀ j, j < TERM_CHAR_BUFFER_SIZE →
      (ingestLine cs).serialRx.getD j '\x00' = cs.getD j '\x00') ∧
    (∀ j, TERM_CHAR_BUFFER_SIZE ≤ j →
      (ingestLine cs).serialRx.getD j '\x00' = '\x00') := by
  have hsplit : ingestLine cs =
      (cs.drop TERM_CHAR_BUFFER_SIZE).foldl Command.next
        ((cs.take TERM_CHAR_BUFFER_SIZE).foldl Command.next Command.init) := by
    unfold ingestLine
    rw [← List.foldl_append, List.take_append_drop]
  have htlen : (cs.take TERM_CHAR_BUFFER_SIZE).length = TERM_CHAR_BUFFER_SIZE := by
    simp [List.length_take]; omega
  obtain ⟨h1, _, h3, _, _, _, _, _, _, _, h11, h12⟩ :=
    foldl_next_fits (cs.take TERM_CHAR_BUFFER_SIZE) Command.init
      (fun c hc => hnl c (List.mem_of_mem_take hc))
      (by simp [Command.init, htlen]) (by simp [Command.init])
  set s64 : Command := (cs.take TERM_CHAR_BUFFER_SIZE).foldl Command.next Command.init
    with hs64
  have hidx64 : s64.index = TERM_CHAR_BUFFER_SIZE := by
    rw [hs64, h1, htlen]; simp [Command.init]
  have hdropne : cs.drop TERM_CHAR_BUFFER_SIZE ≠ [] := by
    intro h
    have := List.length_drop TERM_CHAR_BUFFER_SIZE cs
    rw [h] at this
    simp at this
    omega
  have habs := foldl_next_overflowed (cs.drop TERM_CHAR_BUFFER_SIZE) s64
    (fun c hc => hnl c (List.mem_of_mem_drop hc)) (by omega) hdropne
  rw [hsplit, habs]
  refine ⟨rfl, hidx64, ?_, ?_⟩
  · intro j hj
    show s64.serialRx.getD j '\x00' = cs.getD j '\x00'
    have := h12 j (by rw [htlen]; omega)
    rw [show Command.init.index + j = j by simp [Command.init]] at this
    rw [this, getD_take cs '\x00' hj]
  · intro j hj
    show s64.serialRx.getD j '\x00' = '\x00'
    have := h11 j (by right; rw [htlen]; simp [Command.init]; omega)
    rw [this]
    show (List.replicate (TERM_CHAR_BUFFER_SIZE + 1) '\x00').getD j '\x00' = '\x00'
    exact getD_replicate_self _ j '\x00'

/-- Witness for the amended C5 at a concrete 65-byte batch. -/
theorem c5_witness :
    (ingestLine (List.replicate 65 'a')).overflow = true ∧
    (ingestLine (List.replicate 65 'a')).index = TERM_CHAR_BUFFER_SIZE := by
  have h := c5_overflow_after_capacity_exceeded (List.replicate 65 'a')
    (by decide) (by decide)
  exact ⟨h.1, h.2.1⟩

section ValidationLemmas

/-- The validation scan characterised against the buffer contents: on a
null-padded buffer viewing `line`, the scan from `idx` accepts exactly
when every remaining line character is in the accepted set, rejects
with UnrecognizedInput otherwise, and reports NoInput only for the
empty line. -/
theorem isRxBufferDataValidGo_spec (delim : Char) (rx line : List Char)
    (hdelim : delim ≠ '\x00')
    (hnz : ∀ c ∈ line, c ≠ '\x00')
    (hlen : line.length ≤ TERM_CHAR_BUFFER_SIZE)
    (hview : ∀ j, rx.getD j '\x00' = line.getD j '\x00') :
    ∀ fuel idx, fuel + idx = TERM_CHAR_BUFFER_SIZE + 1 → idx ≤ line.length →
      isRxBufferDataValidGo delim rx idx fuel =
        (if (line.drop idx).all (amendedAllowedChar delim) = true then
          (if line.length = 0 then some .NoInput else none)
         else some .UnrecognizedInput) := by
  intro fuel
  induction fuel with
  | zero =>
    intro idx hsum hidx
    simp only [TERM_CHAR_BUFFER_SIZE] at hsum hlen
    omega
  | succ f ih =>
    intro idx hsum hidx
    rcases Nat.lt_or_ge idx line.length with hlt | hge
    · -- a line character is inspected
      have hcmem : line.getD idx '\x00' ∈ line := getD_mem line '\x00' hlt
      have hvb : validCharBranch delim (rx.getD idx '\x00') =
          amendedAllowedChar delim (line.getD idx '\x00') := by
        rw [hview idx]
        exact validCharBranch_eq_amended delim _
      have hdropc : line.drop idx = line.getD idx '\x00' :: line.drop (idx + 1) := by
        rw [List.getD_eq_getElem line '\x00' hlt]
        exact List.drop_eq_getElem_cons hlt
      by_cases hall : amendedAllowedChar delim (line.getD idx '\x00') = true
      · rw [isRxBufferDataValidGo]
        rw [if_pos (by rw [hvb]; exact hall)]
        rw [ih (idx + 1) (by omega) (by omega)]
        rw [hdropc, List.all_cons, hall, Bool.true_and]
      · rw [isRxBufferDataValidGo]
        rw [if_neg (by rw [hvb]; exact hall)]
        rw [if_neg (by rw [hview idx]; exact hnz _ hcmem)]
        rw [hdropc]
        rw [if_neg (by
          simp only [List.all_cons, Bool.and_eq_true]
          intro hcontra
          exact hall hcontra.1)]
    · -- the null terminator is reached
      have hidxeq : idx = line.length := by omega
      have hc : rx.getD idx '\x00' = '\x00' := by
        rw [hview idx]
        exact List.getD_eq_default line '\x00' (by omega)
      rw [isRxBufferDataValidGo]
      rw [if_neg (by rw [hc]; simp [validCharBranch_nul hdelim]), if_pos hc]
      have hdrop : line.drop idx = [] := by
        rw [hidxeq]; exact List.drop_length line
      rw [hdrop]
      by_cases h0 : line.length = 0
      · simp [hidxeq, h0]
      · simp [hidxeq, h0]

end ValidationLemmas

/-- C4 counterexample: the claim's accept set (letters, digits,
delimiter, whitespace, hyphen, period, comma) disagrees with the code
in both directions: a line consisting of a semicolon — outside the
claim's set — is accepted, and the line "z" — an ASCII letter, inside
the claim's set — is rejected with the unrecognized-input error (the
lower-case range check of the source stops at 'y'). -/
theorem c4_counterexample :
    isRxBufferDataValid ' ' ((ingestLine (';' :: [TERM_LINE_ENDING])).serialRx) = none ∧
    specAllowedChar ' ' ';' = false ∧
    isRxBufferDataValid ' ' ((ingestLine ('z' :: [TERM_LINE_ENDING])).serialRx) =
      some .UnrecognizedInput ∧
    specAllowedChar ' ' 'z' = true := by
  refine ⟨by decide, by decide, by decide, by decide⟩

/-- C4 as amended: line validation accepts a completed non-empty line
if and only if every byte of it is an ASCII letter other than 'z', an
ASCII digit, the configured delimiter, whitespace, ';', '-', '.', or
','; any other byte causes the unrecognized-input error, and an empty
line causes the no-input error. -/
theorem c4_validation_charset (delim : Char) (line : List Char)
    (hdelim : delim ≠ '\x00')
    (hchar : ∀ c ∈ line, c ≠ '\x00' ∧ c ≠ TERM_LINE_ENDING)
    (hlen : line.length ≤ TERM_CHAR_BUFFER_SIZE) :
    isRxBufferDataValid delim
        ((ingestLine (line ++ [TERM_LINE_ENDING])).serialRx) =
      (if line = [] then some .NoInput
       else if line.all (amendedAllowedChar delim) = true then none
       else some .UnrecognizedInput) := by
  obtain ⟨_, _, _, _, _, _, _, _, _, _, h11, h12⟩ :=
    foldl_next_fits line Command.init (fun c hc => (hchar c hc).2)
      (by simp [Command.init]; omega) (by simp [Command.init])
  have hsplit : ingestLine (line ++ [TERM_LINE_ENDING]) =
      Command.next (line.foldl Command.next Command.init) TERM_LINE_ENDING := by
    unfold ingestLine
    rw [List.foldl_append, List.foldl_cons, List.foldl_nil]
  have hterm : Command.next (line.foldl Command.next Command.init) TERM_LINE_ENDING =
      { line.foldl Command.next Command.init with complete := true } := by
    unfold Command.next
    rw [if_pos rfl]
  have hview : ∀ j,
      (ingestLine (line ++ [TERM_LINE_ENDING])).serialRx.getD j '\x00' =
        line.getD j '\x00' := by
    intro j
    rw [hsplit, hterm]
    show (line.foldl Command.next Command.init).serialRx.getD j '\x00' =
      line.getD j '\x00'
    rcases Nat.lt_or_ge j line.length with hj | hj
    · have := h12 j hj
      simpa [Command.init] using this
    · have := h11 j (by right; simp [Command.init]; omega)
      rw [this]
      show (List.replicate (TERM_CHAR_BUFFER_SIZE + 1) '\x00').getD j '\x00' =
        line.getD j '\x00'
      rw [getD_replicate_self, List.getD_eq_default line '\x00' hj]
  have hmain := isRxBufferDataValidGo_spec delim
    ((ingestLine (line ++ [TERM_LINE_ENDING])).serialRx) line hdelim
    (fun c hc => (hchar c hc).1) hlen hview (TERM_CHAR_BUFFER_SIZE + 1) 0
    (by omega) (by omega)
  unfold isRxBufferDataValid
  rw [hmain, List.drop_zero]
  by_cases hnil : line = []
  · rw [if_pos hnil, hnil]
    simp
  · rw [if_neg hnil]
    have hlen0 : ¬ line.length = 0 := fun h => hnil (List.length_eq_zero.mp h)
    by_cases hall : line.all (amendedAllowedChar delim) = true
    · rw [if_pos hall, if_pos hall, if_neg hlen0]
    · rw [if_neg hall, if_neg hall]

/-- Witness for the amended C4 at the concrete line "Abc 1.z-," with
the default delimiter: 'z' makes validation fail. -/
theorem c4_witness :
    isRxBufferDataValid ' '
        ((ingestLine ("Abc 1.z-,".toList ++ [TERM_LINE_ENDING])).serialRx) =
      (if "Abc 1.z-,".toList = [] then some .NoInput
       else if ("Abc 1.z-,".toList).all (amendedAllowedChar ' ') = true then none
       else some .UnrecognizedInput) :=
  c4_validation_charset ' ' ("Abc 1.z-,".toList) (by decide) (by decide) (by decide)

section ParseLemmas

theorem getD_append_left_len {α : Type _} (l₁ l₂ : List α) (j : Nat) (d : α) :
    (l₁ ++ l₂).getD (l₁.length + j) d = l₂.getD j d := by
  simp only [List.getD_eq_getElem?_getD,
    List.getElem?_append_right (by omega : l₁.length ≤ l₁.length + j),
    Nat.add_sub_cancel_left]

/-- The conversion loop characterised against the argument characters:
on a buffer whose bytes after the command prefix view `args`, the loop
from `idx` succeeds with nibble count `min args.length 30` when every
argument character up to the buffer bound is a hex digit, and fails
with the invalid-character error otherwise. -/
theorem parseTwoWireLoop_spec (args data : List Char) (cmdLength : Nat)
    (hview : ∀ j, data.getD (j + cmdLength) '\x00' = args.getD j '\x00')
    (hnz : ∀ c ∈ args, c ≠ '\x00') :
    ∀ fuel idx tw, fuel + idx = TERM_TWOWIRE_BUFFER_SIZE → idx ≤ args.length →
      (((args.take TERM_TWOWIRE_BUFFER_SIZE).drop idx).all isHexDigitChar = true →
        ∃ tw', parseTwoWireLoop data cmdLength fuel idx tw =
          .ok (min args.length TERM_TWOWIRE_BUFFER_SIZE, tw')) ∧
      (((args.take TERM_TWOWIRE_BUFFER_SIZE).drop idx).all isHexDigitChar = false →
        parseTwoWireLoop data cmdLength fuel idx tw =
          .error .InvalidTwoWireCharacter) := by
  intro fuel
  induction fuel with
  | zero =>
    intro idx tw hsum hidx
    have hidx30 : idx = TERM_TWOWIRE_BUFFER_SIZE := by omega
    have hdrop : (args.take TERM_TWOWIRE_BUFFER_SIZE).drop idx = [] := by
      apply List.drop_eq_nil_of_le
      rw [List.length_take]
      omega
    rw [hdrop]
    constructor
    · intro _
      refine ⟨tw, ?_⟩
      rw [parseTwoWireLoop]
      have : min args.length TERM_TWOWIRE_BUFFER_SIZE = idx := by
        rw [hidx30]
        exact Nat.min_eq_right (by omega)
      rw [this]
    · intro h
      simp at h
  | succ f ih =>
    intro idx tw hsum hidx
    have hlt30 : idx < TERM_TWOWIRE_BUFFER_SIZE := by omega
    rcases Nat.lt_or_ge idx args.length with hlt | hge
    · -- an argument character is inspected
      have hcview : data.getD (idx + cmdLength) '\x00' = args.getD idx '\x00' :=
        hview idx
      have hcmem : args.getD idx '\x00' ∈ args := getD_mem args '\x00' hlt
      have hcnz : args.getD idx '\x00' ≠ '\x00' := hnz _ hcmem
      have hdropc : (args.take TERM_TWOWIRE_BUFFER_SIZE).drop idx =
          args.getD idx '\x00' :: (args.take TERM_TWOWIRE_BUFFER_SIZE).drop (idx + 1) := by
        have hlen' : idx < (args.take TERM_TWOWIRE_BUFFER_SIZE).length := by
          rw [List.length_take]; omega
        rw [List.drop_eq_getElem_cons hlen']
        congr 1
        rw [← List.getD_eq_getElem _ '\x00' hlen']
        exact getD_take args '\x00' hlt30
      rw [parseTwoWireLoop, hcview, if_neg hcnz, hdropc]
      by_cases hhex : isHexDigitChar (args.getD idx '\x00') = true
      · have hacc := (hexAccept_iff (args.getD idx '\x00')).mpr hhex
        rcases hacc with h1 | h2
        · rw [if_pos h1]
          have := ih (idx + 1)
            (tw.set idx (hexFold (args.getD idx '\x00').toNat - 48))
            (by omega) (by omega)
          rw [List.all_cons, hhex, Bool.true_and]
          exact this
        · rw [if_neg (by omega), if_pos h2]
          have := ih (idx + 1)
            (tw.set idx (hexFold (args.getD idx '\x00').toNat - 55))
            (by omega) (by omega)
          rw [List.all_cons, hhex, Bool.true_and]
          exact this
      · have hacc : ¬ ((47 < hexFold (args.getD idx '\x00').toNat ∧
            hexFold (args.getD idx '\x00').toNat < 58) ∨
            (64 < hexFold (args.getD idx '\x00').toNat ∧
            hexFold (args.getD idx '\x00').toNat < 71)) := by
          intro hc
          exact hhex ((hexAccept_iff _).mp hc)
        rw [if_neg (fun hc => hacc (Or.inl hc)), if_neg (fun hc => hacc (Or.inr hc))]
        constructor
        · intro hall
          rw [List.all_cons, Bool.and_eq_true] at hall
          exact absurd hall.1 hhex
        · intro _
          rfl
    · -- end of the argument data: the null padding is hit
      have hidxeq : idx = args.length := by omega
      have hcview : data.getD (idx + cmdLength) '\x00' = '\x00' := by
        rw [hview idx]
        exact List.getD_eq_default args '\x00' (by omega)
      rw [parseTwoWireLoop, hcview, if_pos rfl]
      have hdrop : (args.take TERM_TWOWIRE_BUFFER_SIZE).drop idx = [] := by
        apply List.drop_eq_nil_of_le
        rw [List.length_take]
        omega
      rw [hdrop]
      constructor
      · intro _
        refine ⟨tw, ?_⟩
        have : min args.length TERM_TWOWIRE_BUFFER_SIZE = idx := by
          rw [hidxeq]
          exact Nat.min_eq_left (by omega)
        rw [this]
      · intro h
        simp at h

end ParseLemmas

/-- C3 counterexample: the claim quantifies over every argument string,
but the conversion loop stops at the 30-byte twowire buffer bound: an
argument of 30 hex digits followed by the non-hex character 'G'
contains a non-hex-digit character yet does not produce the
invalid-two-wire-character error (the parse succeeds). -/
theorem c3_counterexample :
    ('G' ∈ List.replicate TERM_TWOWIRE_BUFFER_SIZE '1' ++ ['G'] ∧
      isHexDigitChar 'G' = false) ∧
    twoWireParseOn (List.replicate TERM_TWOWIRE_BUFFER_SIZE '1' ++ ['G']) ≠
      .error .InvalidTwoWireCharacter := by
  exact ⟨⟨by decide, by decide⟩, by decide⟩

/-- C3 as amended: for every argument string of at most 30 characters
(the twowire buffer capacity) fed to the two-wire hex parser, a
non-hex-digit character causes the invalid-two-wire-character error;
otherwise fewer than 3 nibbles fail with
invalid-two-wire-command-length; otherwise an odd nibble count fails
with invalid-hex-value-pair; otherwise parsing succeeds.  In
particular "310" yields the odd-pair error, "31G2" the
invalid-character error, and "3102" decodes to nibbles [3,1,0,2],
giving address byte 0x31 and register byte 0x02. -/
theorem c3_parse_classification (args : List Char)
    (hlen : args.length ≤ TERM_TWOWIRE_BUFFER_SIZE)
    (hnz : ∀ c ∈ args, c ≠ '\x00') :
    (args.all isHexDigitChar = false →
      twoWireParseOn args = .error .InvalidTwoWireCharacter) ∧
    (args.all isHexDigitChar = true → args.length < 3 →
      twoWireParseOn args = .error .InvalidTwoWireCmdLength) ∧
    (args.all isHexDigitChar = true → 3 ≤ args.length → args.length % 2 = 1 →
      twoWireParseOn args = .error .InvalidHexValuePair) ∧
    (args.all isHexDigitChar = true → 3 ≤ args.length → args.length % 2 = 0 →
      ∃ s, twoWireParseOn args = .ok (s, args.length)) ∧
    twoWireParseOn ("310".toList) = .error .InvalidHexValuePair ∧
    twoWireParseOn ("31G2".toList) = .error .InvalidTwoWireCharacter ∧
    (∃ s, twoWireParseOn ("3102".toList) = .ok (s, 4) ∧
      s.twowire.take 4 = [3, 1, 0, 2] ∧
      (s.twowire.getD 0 0 * 16 + s.twowire.getD 1 0) % 256 = 0x31 ∧
      (s.twowire.getD 2 0 * 16 + s.twowire.getD 3 0) % 256 = 0x02) := by
  have hview : ∀ j,
      ((['i', '2', 'c', 'w'] ++ args ++
        List.replicate (TERM_CHAR_BUFFER_SIZE + 1 - (4 + args.length)) '\x00').getD
          (j + 4) '\x00') = args.getD j '\x00' := by
    intro j
    rw [List.append_assoc]
    rw [show j + 4 = (['i', '2', 'c', 'w'] : List Char).length + j by simp; omega]
    rw [getD_append_left_len]
    exact getD_append_replicate args _ j '\x00'
  have hspec := parseTwoWireLoop_spec args
    (['i', '2', 'c', 'w'] ++ args ++
      List.replicate (TERM_CHAR_BUFFER_SIZE + 1 - (4 + args.length)) '\x00') 4
    hview hnz TERM_TWOWIRE_BUFFER_SIZE 0
    (Command.init.twowire) (by omega) (by omega)
  have htake : args.take TERM_TWOWIRE_BUFFER_SIZE = args :=
    List.take_of_length_le hlen
  rw [htake, List.drop_zero] at hspec
  have hmin : min args.length TERM_TWOWIRE_BUFFER_SIZE = args.length :=
    Nat.min_eq_left hlen
  rw [hmin] at hspec
  have hrun : twoWireParseOn args =
      parseTwoWireCheck
        { Command.init with
            data := ['i', '2', 'c', 'w'] ++ args ++
              List.replicate (TERM_CHAR_BUFFER_SIZE + 1 - (4 + args.length)) '\x00'
            cmdLength := 4
            argsLength := args.length }
        (parseTwoWireLoop
          (['i', '2', 'c', 'w'] ++ args ++
            List.replicate (TERM_CHAR_BUFFER_SIZE + 1 - (4 + args.length)) '\x00') 4
          TERM_TWOWIRE_BUFFER_SIZE 0 Command.init.twowire) := rfl
  refine ⟨?_, ?_, ?_, ?_, by decide, by decide, ?_⟩
  · intro hbad
    obtain hloop := hspec.2 hbad
    rw [hrun, hloop]
    rfl
  · intro hgood hshort
    obtain ⟨tw', hloop⟩ := hspec.1 hgood
    rw [hrun, hloop, parseTwoWireCheck]
    rw [if_pos hshort]
  · intro hgood h3 hodd
    obtain ⟨tw', hloop⟩ := hspec.1 hgood
    rw [hrun, hloop, parseTwoWireCheck]
    rw [if_neg (by omega), if_pos (by omega)]
  · intro hgood h3 heven
    obtain ⟨tw', hloop⟩ := hspec.1 hgood
    rw [hrun, hloop, parseTwoWireCheck]
    rw [if_neg (by omega), if_neg (by omega)]
    exact ⟨_, rfl⟩
  · exact ⟨{ Command.init with
      data := ['i', '2', 'c', 'w'] ++ "3102".toList ++
        List.replicate (TERM_CHAR_BUFFER_SIZE + 1 - (4 + ("3102".toList).length)) '\x00'
      cmdLength := 4
      argsLength := 4
      twowire := [3, 1, 0, 2, 0, 0, 0, 0, 0, 0, 0, 0, 0, 0, 0,
        0, 0, 0, 0, 0, 0, 0, 0, 0, 0, 0, 0, 0, 0, 0] },
      by decide, by decide, by decide, by decide⟩

/-- Witness for the amended C3 at the concrete argument "31G2". -/
theorem c3_witness :
    twoWireParseOn ("31G2".toList) = .error .InvalidTwoWireCharacter :=
  (c3_parse_classification ("31G2".toList) (by decide) (by decide)).1 (by decide)

/-- C9: the implicit claim that the write and echo loops of
writeTwoWire only read twowire indices below the buffer capacity W = 30
fails: the line "i2c w " followed by 40 hex characters fits the
64-byte line buffer and passes the parser (which caps its conversion at
30 nibbles), reaches the write built-in with argsLength = 40, and the
loops then read twowire[38] and twowire[39] — past the end of the
30-byte buffer. -/
theorem c9_write_loop_reads_out_of_bounds :
    (match tokenizeThenParse ' '
        ("i2c w ".toList ++ List.replicate 40 '3' ++ [TERM_LINE_ENDING]) with
      | .ok (s, _) => some s.argsLength
      | .error _ => none) = some 40 ∧
    39 ∈ twiWriteIndices 40 4 40 ∧
    ¬ (∀ i ∈ twiWriteIndices 40 4 40, i < TERM_TWOWIRE_BUFFER_SIZE) ∧
    (match processLine ' ' [] busAllAck
        ("i2c w ".toList ++ List.replicate 40 '3' ++ [TERM_LINE_ENDING]) with
      | .i2cWriteDone (.done _ _ _) => true
      | _ => false) = true := by
  exact ⟨by decide, by decide, by decide, by decide⟩

/-- C1: user-defined commands take dispatch precedence over built-ins:
whenever the user-callback stage of the dispatcher matches a registered
name, serialCommandProcessor returns exactly that user invocation and
never falls through to built-in dispatch; registering "led" and
dispatching "led on" invokes binding 0 with the argument pointer at
serialRx index 4 — which holds 'o', followed by 'n', inside the
original raw buffer — and length 2; registrations named "scan" or
"i2c" likewise shadow the built-in verbs. -/
theorem c1_user_dispatch_precedence :
    (∀ (delim : Char) (names : List (List Char)) (bus : Bus) (s : Command)
        (k : Nat) (p : Option Nat) (n : Nat),
        userStageOutcome delim names s = some (k, p, n) →
        serialCommandProcessor delim names bus s = .userCall k p n) ∧
    processLine ' ' [['l', 'e', 'd']] busAllAck
        ("led on".toList ++ [TERM_LINE_ENDING]) = .userCall 0 (some 4) 2 ∧
    (ingestLine ("led on".toList ++ [TERM_LINE_ENDING])).serialRx.getD 4 '\x00' = 'o' ∧
    (ingestLine ("led on".toList ++ [TERM_LINE_ENDING])).serialRx.getD 5 '\x00' = 'n' ∧
    processLine ' ' [['s', 'c', 'a', 'n']] busAllAck
        ("scan".toList ++ [TERM_LINE_ENDING]) = .userCall 0 none 0 ∧
    processLine ' ' [['i', '2', 'c']] busAllAck
        ("i2c w 310203".toList ++ [TERM_LINE_ENDING]) = .userCall 0 (some 4) 8 := by
  constructor
  · intro delim names bus s k p n h
    unfold userStageOutcome at h
    unfold serialCommandProcessor
    cases hv : isRxBufferDataValid delim s.serialRx with
    | some e =>
      simp only [hv] at h
      exact Option.noConfusion h
    | none =>
      simp only [hv] at h ⊢
      cases hr : removeSpaces delim s with
      | error e =>
        simp only [hr] at h
        exact Option.noConfusion h
      | ok s1 =>
        simp only [hr] at h ⊢
        rw [h]
  · exact ⟨by decide, by decide, by decide, by decide, by decide⟩

/-- Witness for C1 at the registered command "led" and the line
"led on". -/
theorem c1_witness :
    serialCommandProcessor ' ' [['l', 'e', 'd']] busAllAck
        (ingestLine ("led on".toList ++ [TERM_LINE_ENDING])) =
      .userCall 0 (some 4) 2 :=
  c1_user_dispatch_precedence.1 ' ' [['l', 'e', 'd']] busAllAck
    (ingestLine ("led on".toList ++ [TERM_LINE_ENDING])) 0 (some 4) 2 (by decide)

section TokenizeLemmas

/-- One unfolding of the removeSpaces loop. -/
theorem removeSpacesLoop_step (delim : Char) (fuel i : Nat) (s : Command) (dI : Nat) :
    removeSpacesLoop delim (fuel + 1) i s dI =
      (if s.serialRx.getD i '\x00' ≠ delim then
        if s.serialRx.getD i '\x00' = '\x00' then
          if dI = 0 then
            .error .NoInput
          else
            .ok ((if s.cmdLength = 0 then { s with cmdLength := dI } else s), dI)
        else if isSpace (s.serialRx.getD i '\x00') then
          removeSpacesLoop delim fuel (i + 1) s dI
        else
          removeSpacesLoop delim fuel (i + 1)
            { s with data := s.data.set dI (s.serialRx.getD i '\x00') } (dI + 1)
      else
        if s.pArgs = none ∧ dI ≠ 0 ∧ i ≠ TERM_CHAR_BUFFER_SIZE - 1 then
          removeSpacesLoop delim fuel (i + 1)
            { s with pArgs := some (i + 1), iArgs := i, cmdLength := dI } dI
        else if isSpace (s.serialRx.getD i '\x00') then
          removeSpacesLoop delim fuel (i + 1) s dI
        else
          removeSpacesLoop delim fuel (i + 1)
            { s with data := s.data.set dI (s.serialRx.getD i '\x00') } (dI + 1)) := rfl

/-- The copy phase of the removeSpaces loop: from position `i` on, when
the rest of the raw buffer views a tail of characters that are neither
the delimiter, nor whitespace, nor null, the loop copies them all into
the data buffer at `dataIndex` onwards, then stops at the null
terminator keeping the already-fixed cmdLength, returning data_index
advanced by the tail length. -/
theorem removeSpacesLoop_copyTail (delim : Char) (hdelim : delim ≠ '\x00') :
    ∀ (rest : List Char) (fuel i dI : Nat) (s : Command),
      (∀ c ∈ rest, c ≠ delim ∧ isSpace c = false ∧ c ≠ '\x00') →
      (∀ j, s.serialRx.getD (i + j) '\x00' = rest.getD j '\x00') →
      rest.length < fuel →
      0 < dI → s.cmdLength ≠ 0 →
      dI + rest.length ≤ s.data.length →
      ∃ d' : List Char,
        removeSpacesLoop delim fuel i s dI =
          .ok ({ s with data := d' }, dI + rest.length) ∧
        d'.length = s.data.length ∧
        (∀ j, j < dI → d'.getD j '\x00' = s.data.getD j '\x00') ∧
        (∀ j, j < rest.length → d'.getD (dI + j) '\x00' = rest.getD j '\x00') ∧
        (∀ j, rest.length ≤ j → d'.getD (dI + j) '\x00' = s.data.getD (dI + j) '\x00') := by
  intro rest
  induction rest with
  | nil =>
    intro fuel i dI s hchars hview hfuel hdI hcmd hfit
    obtain ⟨f, rfl⟩ : ∃ f, fuel = f + 1 := ⟨fuel - 1, by omega⟩
    have hc : s.serialRx.getD i '\x00' = '\x00' := by
      have h0 := hview 0
      rw [Nat.add_zero] at h0
      exact h0
    refine ⟨s.data, ?_, rfl, fun j _ => rfl,
      fun j hj => absurd hj (by simp), fun j _ => rfl⟩
    rw [removeSpacesLoop_step, hc]
    rw [if_pos (fun h => hdelim h.symm)]
    rw [if_pos rfl]
    rw [if_neg (by omega)]
    rw [if_neg hcmd]
    rfl
  | cons c rest ih =>
    intro fuel i dI s hchars hview hfuel hdI hcmd hfit
    obtain ⟨f, rfl⟩ : ∃ f, fuel = f + 1 := ⟨fuel - 1, by omega⟩
    obtain ⟨hcd, hcs, hcz⟩ := hchars c (List.mem_cons_self c rest)
    have hc : s.serialRx.getD i '\x00' = c := by
      have h0 := hview 0
      rw [Nat.add_zero] at h0
      exact h0
    have hfit' : dI < s.data.length := by
      simp only [List.length_cons] at hfit
      omega
    obtain ⟨d', hrun, hlen', hpre, hmid, hpost⟩ :=
      ih f (i + 1) (dI + 1) { s with data := s.data.set dI c }
        (fun x hx => hchars x (List.mem_cons_of_mem c hx))
        (fun j => by
          show s.serialRx.getD (i + 1 + j) '\x00' = rest.getD j '\x00'
          have hj := hview (j + 1)
          rw [show i + (j + 1) = i + 1 + j by omega] at hj
          exact hj)
        (by simp only [List.length_cons] at hfuel; omega)
        (by omega)
        hcmd
        (by
          show dI + 1 + rest.length ≤ (s.data.set dI c).length
          rw [List.length_set]
          simp only [List.length_cons] at hfit
          omega)
    refine ⟨d', ?_, ?_, ?_, ?_, ?_⟩
    · rw [removeSpacesLoop_step, hc]
      rw [if_pos hcd]
      rw [if_neg hcz]
      rw [if_neg (by simp [hcs])]
      rw [hrun]
      rw [show dI + 1 + rest.length = dI + (c :: rest).length by simp; omega]
    · rw [hlen', List.length_set]
    · intro j hj
      rw [hpre j (by omega)]
      exact getD_set_ne s.data c '\x00' (by omega)
    · intro j hj
      match j with
      | 0 =>
        rw [Nat.add_zero, hpre dI (by omega)]
        rw [getD_set_self s.data dI c '\x00' hfit']
        rfl
      | j' + 1 =>
        have hm := hmid j' (by simp only [List.length_cons] at hj; omega)
        rw [show dI + (j' + 1) = dI + 1 + j' by omega, hm]
        rfl
    · intro j hj
      simp only [List.length_cons] at hj
      have hp := hpost (j - 1) (by omega)
      rw [show dI + 1 + (j - 1) = dI + j by omega] at hp
      rw [hp]
      exact getD_set_ne s.data c '\x00' (by omega)

/-- The state an ingested line leaves behind: the raw buffer views the
line padded with nulls and the other buffers and indices keep their
constructed values. -/
theorem ingestLine_spec (line : List Char)
    (hnl : ∀ c ∈ line, c ≠ TERM_LINE_ENDING)
    (hlen : line.length ≤ TERM_CHAR_BUFFER_SIZE) :
    (∀ j, (ingestLine (line ++ [TERM_LINE_ENDING])).serialRx.getD j '\x00' =
      line.getD j '\x00') ∧
    (ingestLine (line ++ [TERM_LINE_ENDING])).data =
      List.replicate (TERM_CHAR_BUFFER_SIZE + 1) '\x00' ∧
    (ingestLine (line ++ [TERM_LINE_ENDING])).pArgs = none ∧
    (ingestLine (line ++ [TERM_LINE_ENDING])).cmdLength = 0 ∧
    (ingestLine (line ++ [TERM_LINE_ENDING])).twowire =
      List.replicate TERM_TWOWIRE_BUFFER_SIZE 0 := by
  obtain ⟨h1, h2, h3, h4, h5, h6, h7, h8, h9, h10, h11, h12⟩ :=
    foldl_next_fits line Command.init hnl (by simp [Command.init]; omega)
      (by simp [Command.init])
  have hsplit : ingestLine (line ++ [TERM_LINE_ENDING]) =
      Command.next (line.foldl Command.next Command.init) TERM_LINE_ENDING := by
    unfold ingestLine
    rw [List.foldl_append, List.foldl_cons, List.foldl_nil]
  have hterm : Command.next (line.foldl Command.next Command.init) TERM_LINE_ENDING =
      { line.foldl Command.next Command.init with complete := true } := by
    unfold Command.next
    rw [if_pos rfl]
  refine ⟨?_, ?_, ?_, ?_, ?_⟩
  · intro j
    rw [hsplit, hterm]
    show (line.foldl Command.next Command.init).serialRx.getD j '\x00' =
      line.getD j '\x00'
    rcases Nat.lt_or_ge j line.length with hj | hj
    · have hh := h12 j hj
      simpa [Command.init] using hh
    · have hh := h11 j (by right; simp [Command.init]; omega)
      rw [hh]
      show (List.replicate (TERM_CHAR_BUFFER_SIZE + 1) '\x00').getD j '\x00' =
        line.getD j '\x00'
      rw [getD_replicate_self, List.getD_eq_default line '\x00' hj]
  · rw [hsplit, hterm]
    show (line.foldl Command.next Command.init).data = _
    rw [h4]
    rfl
  · rw [hsplit, hterm]
    show (line.foldl Command.next Command.init).pArgs = _
    rw [h6]
    rfl
  · rw [hsplit, hterm]
    show (line.foldl Command.next Command.init).cmdLength = _
    rw [h8]
    rfl
  · rw [hsplit, hterm]
    show (line.foldl Command.next Command.init).twowire = _
    rw [h5]
    rfl

end TokenizeLemmas

/-- C6: for every valid spaced `i2c r` command line (hex argument of
4 to 57 hex digits whose nibble count as capped by the twowire buffer
is even) dispatched on a bus that acknowledges every address, the read
built-in requests exactly argsLength/2 - 1 bytes from the bus, where
argsLength is the count of hex characters following the 4-character
command prefix; in particular "i2c r 3102" requests 1 byte and
"i2c r 310200" requests 2 bytes — the read length is derived from the
input length alone. -/
theorem c6_read_request_count (bus : Bus) (hex : List Char)
    (hack : ∀ n, bus.ack n = true)
    (hhex : hex.all isHexDigitChar = true)
    (hlen4 : 4 ≤ hex.length) (hlen57 : hex.length ≤ 57)
    (heven : (min hex.length TERM_TWOWIRE_BUFFER_SIZE) % 2 = 0) :
    (∃ a r recv, processLine ' ' [] bus
        ((['i', '2', 'c', ' ', 'r', ' '] ++ hex) ++ [TERM_LINE_ENDING]) =
          .i2cReadDone (.done a r (hex.length / 2 - 1) recv)) ∧
    processLine ' ' [] busAllAck ("i2c r 3102".toList ++ [TERM_LINE_ENDING]) =
      .i2cReadDone (.done 0x31 0x02 1 []) ∧
    processLine ' ' [] busAllAck ("i2c r 310200".toList ++ [TERM_LINE_ENDING]) =
      .i2cReadDone (.done 0x31 0x02 2 []) := by
  refine ⟨?_, by decide, by decide⟩
  have hhex' : ∀ c ∈ hex, isHexDigitChar c = true :=
    fun c hc => List.all_eq_true.mp hhex c hc
  have hprops : ∀ c ∈ hex,
      c ≠ '\x00' ∧ c ≠ TERM_LINE_ENDING ∧ isSpace c = false ∧ c ≠ ' ' :=
    fun c hc => isHexDigitChar_props (hhex' c hc)
  have hlineNl : ∀ c ∈ ['i', '2', 'c', ' ', 'r', ' '] ++ hex,
      c ≠ TERM_LINE_ENDING := by
    intro c hc
    rcases List.mem_append.mp hc with h | h
    · simp only [List.mem_cons, List.not_mem_nil, or_false] at h
      rcases h with rfl | rfl | rfl | rfl | rfl | rfl <;> decide
    · exact (hprops c h).2.1
  have hlineNz : ∀ c ∈ ['i', '2', 'c', ' ', 'r', ' '] ++ hex, c ≠ '\x00' := by
    intro c hc
    rcases List.mem_append.mp hc with h | h
    · simp only [List.mem_cons, List.not_mem_nil, or_false] at h
      rcases h with rfl | rfl | rfl | rfl | rfl | rfl <;> decide
    · exact (hprops c h).1
  have hlinelen : (['i', '2', 'c', ' ', 'r', ' '] ++ hex).length ≤
      TERM_CHAR_BUFFER_SIZE := by
    simp only [List.length_append, List.length_cons, List.length_nil,
      TERM_CHAR_BUFFER_SIZE]
    omega
  unfold processLine
  obtain ⟨hviewRx, hdata0, hpArgs0, hcmd0, htw0⟩ :=
    ingestLine_spec (['i', '2', 'c', ' ', 'r', ' '] ++ hex) hlineNl hlinelen
  set s0 : Command :=
    ingestLine ((['i', '2', 'c', ' ', 'r', ' '] ++ hex) ++ [TERM_LINE_ENDING])
    with hs0
  -- validation passes
  have hallam : (['i', '2', 'c', ' ', 'r', ' '] ++ hex).all
      (amendedAllowedChar ' ') = true := by
    rw [List.all_append]
    rw [show (['i', '2', 'c', ' ', 'r', ' '] : List Char).all
        (amendedAllowedChar ' ') = true from by decide]
    rw [Bool.true_and]
    exact List.all_eq_true.mpr (fun c hc => isHexDigitChar_amended ' ' (hhex' c hc))
  have hvalid : isRxBufferDataValid ' ' s0.serialRx = none := by
    have hm := isRxBufferDataValidGo_spec ' ' s0.serialRx
      (['i', '2', 'c', ' ', 'r', ' '] ++ hex) (by decide) hlineNz hlinelen hviewRx
      (TERM_CHAR_BUFFER_SIZE + 1) 0 (by omega) (by omega)
    unfold isRxBufferDataValid
    rw [hm, List.drop_zero, if_pos hallam]
    rw [if_neg (by
      simp only [List.length_append, List.length_cons, List.length_nil]
      omega)]
  -- the six characters of the command prefix
  have hv0 : s0.serialRx.getD 0 '\x00' = 'i' := (hviewRx 0).trans rfl
  have hv1 : ({ s0 with data := s0.data.set 0 'i' } : Command).serialRx.getD 1
      '\x00' = '2' := (hviewRx 1).trans rfl
  have hv2 : ({ s0 with data := (s0.data.set 0 'i').set 1 '2' } :
      Command).serialRx.getD 2 '\x00' = 'c' := (hviewRx 2).trans rfl
  have hv3 : ({ s0 with data := ((s0.data.set 0 'i').set 1 '2').set 2 'c' } :
      Command).serialRx.getD 3 '\x00' = ' ' := (hviewRx 3).trans rfl
  have hv4 :
      ({ s0 with
           data := ((s0.data.set 0 'i').set 1 '2').set 2 'c',
           pArgs := some 4, iArgs := 3, cmdLength := 3 } :
        Command).serialRx.getD 4 '\x00' = 'r' := (hviewRx 4).trans rfl
  have hv5 :
      ({ s0 with
           data := (((s0.data.set 0 'i').set 1 '2').set 2 'c').set 3 'r',
           pArgs := some 4, iArgs := 3, cmdLength := 3 } :
        Command).serialRx.getD 5 '\x00' = ' ' := (hviewRx 5).trans rfl
  -- the copy phase over the hex argument
  have hdlen : s0.data.length = TERM_CHAR_BUFFER_SIZE + 1 := by
    rw [hdata0, List.length_replicate]
  obtain ⟨d', hrun, hlen', hpre, hmid, hpost⟩ :=
    removeSpacesLoop_copyTail ' ' (by decide) hex 58 6 4
      { s0 with
          data := (((s0.data.set 0 'i').set 1 '2').set 2 'c').set 3 'r',
          pArgs := some 4, iArgs := 3, cmdLength := 3 }
      (fun c hc => ⟨(hprops c hc).2.2.2, (hprops c hc).2.2.1, (hprops c hc).1⟩)
      (fun j => (hviewRx (6 + j)).trans
        (getD_append_left_len ['i', '2', 'c', ' ', 'r', ' '] hex j '\x00'))
      (by omega) (by omega) (by show (3 : Nat) ≠ 0; decide)
      (by
        show 4 + hex.length ≤
          ((((s0.data.set 0 'i').set 1 '2').set 2 'c').set 3 'r').length
        simp only [List.length_set]
        rw [hdlen]
        simp only [TERM_CHAR_BUFFER_SIZE]
        omega)
  have hloop : removeSpacesLoop ' ' TERM_CHAR_BUFFER_SIZE 0 s0 0 =
      .ok
        ({ s0 with
             data := d', pArgs := some 4, iArgs := 3, cmdLength := 3 },
          4 + hex.length) := by
    show removeSpacesLoop ' ' (63 + 1) 0 s0 0 = _
    rw [removeSpacesLoop_step, hv0, if_pos (by decide), if_neg (by decide),
        if_neg (by decide)]
    show removeSpacesLoop ' ' (62 + 1) 1
      { s0 with data := s0.data.set 0 'i' } 1 = _
    rw [removeSpacesLoop_step, hv1, if_pos (by decide), if_neg (by decide),
        if_neg (by decide)]
    show removeSpacesLoop ' ' (61 + 1) 2
      { s0 with data := (s0.data.set 0 'i').set 1 '2' } 2 = _
    rw [removeSpacesLoop_step, hv2, if_pos (by decide), if_neg (by decide),
        if_neg (by decide)]
    show removeSpacesLoop ' ' (60 + 1) 3
      { s0 with data := ((s0.data.set 0 'i').set 1 '2').set 2 'c' } 3 = _
    rw [removeSpacesLoop_step, hv3, if_neg (by decide),
        if_pos ⟨hpArgs0, by decide, by decide⟩]
    show removeSpacesLoop ' ' (59 + 1) 4
      { s0 with
          data := ((s0.data.set 0 'i').set 1 '2').set 2 'c',
          pArgs := some 4, iArgs := 3, cmdLength := 3 } 3 = _
    rw [removeSpacesLoop_step, hv4, if_pos (by decide), if_neg (by decide),
        if_neg (by decide)]
    show removeSpacesLoop ' ' (58 + 1) 5
      { s0 with
          data := (((s0.data.set 0 'i').set 1 '2').set 2 'c').set 3 'r',
          pArgs := some 4, iArgs := 3, cmdLength := 3 } 4 = _
    rw [removeSpacesLoop_step, hv5, if_neg (by decide),
        if_neg (by
          intro hcon
          exact Option.noConfusion
            (show (some 4 : Option Nat) = none from hcon.1)),
        if_pos (by decide)]
    exact hrun
  have hrs : removeSpaces ' ' s0 =
      .ok
        { s0 with
            data := d', pArgs := some 4, iArgs := 3, cmdLength := 3,
            argsLength := 4 + hex.length - 3 } := by
    unfold removeSpaces
    rw [hloop]
  have huser : runUserCallbacks []
      { s0 with
          data := d', pArgs := some 4, iArgs := 3, cmdLength := 3,
          argsLength := 4 + hex.length - 3 } = none := rfl
  -- the compacted command token reads i2cr
  have hB0 : d'.getD 0 '\x00' = 'i' := by
    rw [hpre 0 (by omega)]
    show ((((s0.data.set 0 'i').set 1 '2').set 2 'c').set 3 'r').getD 0 '\x00' = 'i'
    rw [getD_set_ne _ _ _ (by omega), getD_set_ne _ _ _ (by omega),
        getD_set_ne _ _ _ (by omega)]
    exact getD_set_self _ _ _ _ (by rw [hdlen]; omega)
  have hB1 : d'.getD 1 '\x00' = '2' := by
    rw [hpre 1 (by omega)]
    show ((((s0.data.set 0 'i').set 1 '2').set 2 'c').set 3 'r').getD 1 '\x00' = '2'
    rw [getD_set_ne _ _ _ (by omega), getD_set_ne _ _ _ (by omega)]
    exact getD_set_self _ _ _ _ (by rw [List.length_set, hdlen]; decide)
  have hB2 : d'.getD 2 '\x00' = 'c' := by
    rw [hpre 2 (by omega)]
    show ((((s0.data.set 0 'i').set 1 '2').set 2 'c').set 3 'r').getD 2 '\x00' = 'c'
    rw [getD_set_ne _ _ _ (by omega)]
    exact getD_set_self _ _ _ _
      (by rw [List.length_set, List.length_set, hdlen]; decide)
  have hB3 : d'.getD 3 '\x00' = 'r' := by
    rw [hpre 3 (by omega)]
    show ((((s0.data.set 0 'i').set 1 '2').set 2 'c').set 3 'r').getD 3 '\x00' = 'r'
    exact getD_set_self _ _ _ _
      (by rw [List.length_set, List.length_set, List.length_set, hdlen]; decide)
  -- the twowire parse stage
  have hadj : parseTwoWireAdjust
      { s0 with
          data := d', pArgs := some 4, iArgs := 3, cmdLength := 3,
          argsLength := 4 + hex.length - 3 } =
      { s0 with
          data := d', pArgs := some 4, iArgs := 3, cmdLength := 4,
          argsLength := hex.length } := by
    unfold parseTwoWireAdjust
    rw [if_pos (by show (3 : Nat) ≠ 4; decide)]
    rw [show (({ s0 with
                  data := d', pArgs := some 4, iArgs := 3, cmdLength := 3,
                  argsLength := 4 + hex.length - 3 } :
        Command).argsLength +
        ({ s0 with
            data := d', pArgs := some 4, iArgs := 3, cmdLength := 3,
            argsLength := 4 + hex.length - 3 } : Command).cmdLength + 252) % 256 =
        hex.length from by
      show ((4 + hex.length - 3) + 3 + 252) % 256 = hex.length
      omega]
  have hviewD : ∀ j, d'.getD (j + 4) '\x00' = hex.getD j '\x00' := by
    intro j
    rcases Nat.lt_or_ge j hex.length with hj | hj
    · rw [show j + 4 = 4 + j by omega]
      exact hmid j hj
    · rw [show j + 4 = 4 + j by omega]
      rw [hpost j hj]
      rw [List.getD_eq_default hex '\x00' hj]
      show ((((s0.data.set 0 'i').set 1 '2').set 2 'c').set 3 'r').getD (4 + j)
        '\x00' = '\x00'
      rw [getD_set_ne _ _ _ (by omega), getD_set_ne _ _ _ (by omega),
          getD_set_ne _ _ _ (by omega), getD_set_ne _ _ _ (by omega)]
      rw [hdata0]
      exact getD_replicate_self _ _ _
  obtain ⟨tw', hloop2⟩ := (parseTwoWireLoop_spec hex d' 4 hviewD
      (fun c hc => (hprops c hc).1) TERM_TWOWIRE_BUFFER_SIZE 0
      (List.replicate TERM_TWOWIRE_BUFFER_SIZE 0) (by omega) (by omega)).1
    (by
      rw [List.drop_zero]
      exact List.all_eq_true.mpr
        (fun c hc => hhex' c (List.mem_of_mem_take hc)))
  have hparse : parseTwoWireData
      { s0 with
          data := d', pArgs := some 4, iArgs := 3, cmdLength := 3,
          argsLength := 4 + hex.length - 3 } =
      .ok
        ({ s0 with
             data := d', pArgs := some 4, iArgs := 3, cmdLength := 4,
             argsLength := hex.length, twowire := tw' },
          min hex.length TERM_TWOWIRE_BUFFER_SIZE) := by
    unfold parseTwoWireData
    rw [hadj]
    show parseTwoWireCheck
        { s0 with
            data := d', pArgs := some 4, iArgs := 3, cmdLength := 4,
            argsLength := hex.length }
        (parseTwoWireLoop d' 4 TERM_TWOWIRE_BUFFER_SIZE 0 s0.twowire) = _
    rw [htw0, hloop2, parseTwoWireCheck]
    rw [if_neg (by simp only [TERM_TWOWIRE_BUFFER_SIZE]; omega),
        if_neg (by simp only [TERM_TWOWIRE_BUFFER_SIZE] at heven ⊢; omega)]
  -- the read built-in
  have hread : readTwoWire bus
      { s0 with
          data := d', pArgs := some 4, iArgs := 3, cmdLength := 3,
          argsLength := 4 + hex.length - 3 } =
      .done ((tw'.getD 0 0 * 16 + tw'.getD 1 0) % 256)
        ((tw'.getD 2 0 * 16 + tw'.getD 3 0) % 256)
        (hex.length / 2 - 1)
        (bus.readBytes.take (hex.length / 2 - 1)) := by
    unfold readTwoWire
    rw [hparse]
    show (if ¬ bus.ack ((tw'.getD 0 0 * 16 + tw'.getD 1 0) % 256) = true then
        ReadResult.nack ((tw'.getD 0 0 * 16 + tw'.getD 1 0) % 256)
          ((tw'.getD 2 0 * 16 + tw'.getD 3 0) % 256)
      else if (bus.readBytes.take ((hex.length / 2 + 255) % 256)).length >
          TERM_TWOWIRE_BUFFER_SIZE then
        ReadResult.lengthErr ((tw'.getD 0 0 * 16 + tw'.getD 1 0) % 256)
          ((tw'.getD 2 0 * 16 + tw'.getD 3 0) % 256)
          ((hex.length / 2 + 255) % 256)
      else
        ReadResult.done ((tw'.getD 0 0 * 16 + tw'.getD 1 0) % 256)
          ((tw'.getD 2 0 * 16 + tw'.getD 3 0) % 256)
          ((hex.length / 2 + 255) % 256)
          (bus.readBytes.take ((hex.length / 2 + 255) % 256))) = _
    rw [hack, show ((hex.length / 2 + 255) % 256) = hex.length / 2 - 1 from
      by omega]
    rw [if_neg (by simp)]
    rw [if_neg (by
      rw [List.length_take]
      simp only [TERM_TWOWIRE_BUFFER_SIZE]
      omega)]
  -- assemble the dispatcher
  refine ⟨(tw'.getD 0 0 * 16 + tw'.getD 1 0) % 256,
    (tw'.getD 2 0 * 16 + tw'.getD 3 0) % 256,
    bus.readBytes.take (hex.length / 2 - 1), ?_⟩
  unfold serialCommandProcessor
  rw [hvalid]
  simp only [hrs]
  simp only [huser]
  simp only [hB0, hB1, hB2, hB3]
  rw [if_pos (by simp)]
  rw [if_pos (by simp)]
  rw [hread]

/-- Witness for C6 at the line "i2c r 3102" on the all-acknowledging
bus. -/
theorem c6_witness :
    ∃ a r recv, processLine ' ' []
        { ack := fun _ => true, readBytes := [] }
        ((['i', '2', 'c', ' ', 'r', ' '] ++ "3102".toList) ++ [TERM_LINE_ENDING]) =
      .i2cReadDone (.done a r (("3102".toList).length / 2 - 1) recv) :=
  (c6_read_request_count { ack := fun _ => true, readBytes := [] }
    ("3102".toList) (fun _ => rfl) (by decide) (by decide) (by decide)
    (by decide)).1

end TerminalCommander
